import Mathlib

/-!
Verification of the drupal_ls workspace-indexing core against its design
document. The Rust sources are embedded shallowly: Rust `String`/`&str`
values are modelled as `List Char`, fallible code returns `Option`, and a
Rust panic is modelled as the `Except.error` branch of an `Except` result.
Tree-sitter trees appear only through the fields the embedded functions
actually consult (previous-sibling chains, named child fields), which are
made explicit parameters of the embedding.
-/

namespace DrupalLs

/-- Rust `str::ends_with` on the character-list model of strings. -/
def endsWithS (s suffix : List Char) : Bool :=
  suffix.isSuffixOf s

/-- `FileType` from `src/document_store/document.rs` (lines 9-14). -/
inductive FileType where
  | php
  | yaml
  | unknown
  deriving DecidableEq, Repr

/-- `uri_to_file_type` from `src/document_store/document.rs` (lines 74-86),
translated clause by clause: the `.yml`/`.yaml` test comes first, then the
four imperative suffixes, otherwise `Unknown`. -/
def uriToFileType (uri : List Char) : FileType :=
  if endsWithS uri ".yml".data || endsWithS uri ".yaml".data then .yaml
  else if endsWithS uri ".php".data || endsWithS uri ".module".data
      || endsWithS uri ".theme".data || endsWithS uri ".install".data then .php
  else .unknown

/-- The character set trimmed by `PhpClassName::from` in
`src/parser/tokens.rs` (line 53): a single quote or a backslash. -/
def isTrimQuoteChar (c : Char) : Bool :=
  c = '\'' || c = '\\'

/-- Rust `str::trim_matches` with a character-set pattern: matching
characters are stripped from both ends, repeatedly. -/
def trimMatches (p : Char → Bool) (s : List Char) : List Char :=
  ((s.dropWhile p).reverse.dropWhile p).reverse

/-- `PhpClassName` from `src/parser/tokens.rs` (lines 37-40). -/
structure PhpClassName where
  value : List Char
  deriving DecidableEq, Repr

/-- `impl From<&str> for PhpClassName` from `src/parser/tokens.rs`
(lines 48-56): `value.trim_matches(['\'', '\\'])`. -/
def PhpClassName.fromStr (value : List Char) : PhpClassName :=
  ⟨trimMatches isTrimQuoteChar value⟩

/-- `PhpMethod` from `src/parser/tokens.rs` (lines 70-75). -/
structure PhpMethod where
  name : List Char
  className : Option PhpClassName
  serviceName : Option (List Char)
  deriving DecidableEq, Repr

/-- `DrupalPluginType` from `src/parser/tokens.rs` (lines 154-162). -/
inductive DrupalPluginType where
  | entityType
  | queueWorker
  | fieldType
  | dataType
  | formElement
  | renderElement
  deriving DecidableEq, Repr

/-- `DrupalPlugin` from `src/parser/tokens.rs` (lines 186-191). -/
structure DrupalPlugin where
  pluginType : DrupalPluginType
  pluginId : List Char
  usageExample : Option (List Char)
  deriving DecidableEq, Repr

/-- `ClassAttribute` from `src/parser/tokens.rs` (lines 58-61). -/
inductive ClassAttribute where
  | plugin (p : DrupalPlugin)
  deriving DecidableEq, Repr

/-- A tree-sitter `Point`: row and column. -/
structure PointM where
  row : Nat
  col : Nat
  deriving DecidableEq, Repr

/-- A tree-sitter `Range`: byte offsets and points. -/
structure RangeM where
  startByte : Nat
  endByte : Nat
  startPoint : PointM
  endPoint : PointM
  deriving DecidableEq, Repr

/-- A method entry of a `PhpClass`'s `methods` map: in the source the map
holds boxed `Token`s whose data is always `PhpMethodDefinition`, so the
entry is flattened to the range plus the `PhpMethod` payload. -/
structure MethodToken where
  range : RangeM
  method : PhpMethod
  deriving DecidableEq, Repr

/-- `PhpClass` from `src/parser/tokens.rs` (lines 63-68); the `HashMap` of
methods is modelled as an association list keyed by method name. -/
structure PhpClassM where
  name : PhpClassName
  attr : Option ClassAttribute
  methods : List (List Char × MethodToken)
  deriving DecidableEq, Repr

/-- `DrupalRouteDefaults` from `src/parser/tokens.rs` (lines 128-134). -/
structure DrupalRouteDefaults where
  controller : Option PhpMethod
  form : Option PhpClassName
  entityForm : Option (List Char)
  title : Option (List Char)
  deriving DecidableEq, Repr

/-- `DrupalRoute` from `src/parser/tokens.rs` (lines 108-113). -/
structure DrupalRoute where
  name : List Char
  path : List Char
  defaults : DrupalRouteDefaults
  deriving DecidableEq, Repr

/-- `DrupalService` from `src/parser/tokens.rs` (lines 136-140). -/
structure DrupalService where
  name : List Char
  classRef : PhpClassName
  deriving DecidableEq, Repr

/-- `DrupalHook` from `src/parser/tokens.rs` (lines 142-146). -/
structure DrupalHook where
  name : List Char
  parameters : Option (List Char)
  deriving DecidableEq, Repr

/-- `DrupalPermission` from `src/parser/tokens.rs` (lines 148-152). -/
structure DrupalPermission where
  name : List Char
  title : List Char
  deriving DecidableEq, Repr

/-- `DrupalPluginReference` from `src/parser/tokens.rs` (lines 193-197). -/
structure DrupalPluginRefM where
  pluginType : DrupalPluginType
  pluginId : List Char
  deriving DecidableEq, Repr

/-- `DrupalTranslationString` from `src/parser/tokens.rs` (lines 199-203). -/
structure DrupalTranslationString where
  string : List Char
  placeholders : Option (List Char)
  deriving DecidableEq, Repr

/-- `TokenData` from `src/parser/tokens.rs` (lines 19-35). -/
inductive TokenData where
  | phpClassReference (name : PhpClassName)
  | phpClassDefinition (c : PhpClassM)
  | phpMethodReference (m : PhpMethod)
  | phpMethodDefinition (m : PhpMethod)
  | drupalRouteReference (name : List Char)
  | drupalRouteDefinition (r : DrupalRoute)
  | drupalServiceReference (name : List Char)
  | drupalServiceDefinition (s : DrupalService)
  | drupalHookReference (name : List Char)
  | drupalHookDefinition (h : DrupalHook)
  | drupalPermissionDefinition (p : DrupalPermission)
  | drupalPermissionReference (name : List Char)
  | drupalPluginReference (p : DrupalPluginRefM)
  | drupalTranslationString (t : DrupalTranslationString)
  deriving DecidableEq, Repr

/-- `Token` from `src/parser/tokens.rs` (lines 7-11). -/
structure Token where
  range : RangeM
  data : TokenData
  deriving DecidableEq, Repr

/-- `Document` from `src/document_store/document.rs` (lines 16-22). The
token type is a parameter `α`: the two tree-sitter extractors behind
`Document::parse` are passed in explicitly wherever parsing is modelled, so
the store-level theorems hold for every extractor pair. -/
structure Document (α : Type) where
  fileType : FileType
  content : List Char
  tokens : List α
  uri : List Char
  deriving DecidableEq, Repr

/-- `Document::new` from `src/document_store/document.rs` (lines 24-32). -/
def Document.new {α : Type} (uri content : List Char) : Document α :=
  ⟨uriToFileType uri, content, [], uri⟩

/-- `Document::set_content` from `src/document_store/document.rs`
(lines 34-36). -/
def Document.setContent {α : Type} (d : Document α) (content : List Char) :
    Document α :=
  { d with content := content }

/-- The dispatch inside `Document::parse` (`document.rs` lines 38-53):
`Php` runs the imperative extractor on the content, `Yaml` runs the
configuration extractor on content and uri, `Unknown` logs and yields no
tokens. -/
def parseTokensFor {α : Type} (phpGetTokens : List Char → List α)
    (yamlGetTokens : List Char → List Char → List α)
    (ft : FileType) (content uri : List Char) : List α :=
  match ft with
  | .php => phpGetTokens content
  | .yaml => yamlGetTokens content uri
  | .unknown => []

/-- `Document::parse` from `src/document_store/document.rs` (lines 38-53):
replaces the token list with the extractor's output for the current
content; nothing else changes. -/
def Document.parse {α : Type} (phpGetTokens : List Char → List α)
    (yamlGetTokens : List Char → List Char → List α)
    (d : Document α) : Document α :=
  { d with tokens := parseTokensFor phpGetTokens yamlGetTokens d.fileType d.content d.uri }

/-- The `DocumentStore`'s `HashMap<String, Document>` modelled as an
association list with unique keys (the lookup takes the first match, and
updates rewrite entries in place, so the model agrees with the map). -/
abbrev Store (α : Type) := List (List Char × Document α)

/-- `DocumentStore::get_document` from `src/document_store/mod.rs`
(lines 100-102). -/
def getDocument {α : Type} (s : Store α) (uri : List Char) : Option (Document α) :=
  (s.find? (fun e => decide (e.1 = uri))).map Prod.snd

/-- The effect of `DocumentStore::get_document_mut` followed by in-place
mutation: every entry with the given key is rewritten by `f`. -/
def updateDocument {α : Type} (s : Store α) (uri : List Char)
    (f : Document α → Document α) : Store α :=
  s.map (fun e => if e.1 = uri then (e.1, f e.2) else e)

/-- `DocumentStore::change_document` from `src/document_store/mod.rs`
(lines 123-142): more than one change is refused with a log and the store
is untouched; otherwise, for an existing document, each change's text is
written with `set_content` in order and the document is re-parsed once; a
missing document only logs. -/
def changeDocument {α : Type} (phpGetTokens : List Char → List α)
    (yamlGetTokens : List Char → List Char → List α)
    (s : Store α) (uri : List Char) (changes : List (List Char)) : Store α :=
  if changes.length > 1 then s
  else
    match getDocument s uri with
    | some _ =>
        updateDocument s uri fun d =>
          Document.parse phpGetTokens yamlGetTokens
            (changes.foldl (fun acc text => acc.setContent text) d)
    | none => s

/-- One entry of the walk result inside `initialize_document_store`
(`src/document_store/mod.rs` lines 60-78): either the `Url::from_file_path`
conversion failed, or it produced a path whose filesystem read either
yields text or fails. -/
inductive WalkEntry where
  | pathErr
  | pathOk (path : List Char) (readResult : Option (List Char))
  deriving DecidableEq, Repr

/-- The `format!("file://{}", path)` uri of `initialize_document_store`. -/
def fileUri (path : List Char) : List Char :=
  "file://".data ++ path

/-- The parallel parse step of `initialize_document_store`
(`src/document_store/mod.rs` lines 60-78). The `filter_map` drops entries
whose `Url` conversion failed (`Err`), but calls
`fs::read_to_string(&path).unwrap()` on the rest: a read failure panics,
modelled as `none` for the whole scan. A successful scan returns the merged
document map. -/
def initializeDocuments {α : Type} (phpGetTokens : List Char → List α)
    (yamlGetTokens : List Char → List Char → List α) :
    List WalkEntry → Option (Store α)
  | [] => some []
  | .pathErr :: rest => initializeDocuments phpGetTokens yamlGetTokens rest
  | .pathOk _ none :: _ => none
  | .pathOk path (some text) :: rest =>
      (initializeDocuments phpGetTokens yamlGetTokens rest).map
        (fun r =>
          (fileUri path,
            Document.parse phpGetTokens yamlGetTokens
              (Document.new (fileUri path) text)) :: r)

/-- Rust `str::find` for a literal pattern, on the character-list model:
the first index at which `sub` occurs in `s` (`some 0` for the empty
pattern, as in Rust). `sub` comes first so recursion runs over `s`. -/
def findSub (sub : List Char) : List Char → Option Nat
  | [] => if sub.isEmpty then some 0 else none
  | s@(_ :: t) =>
      if sub.isPrefixOf s then some 0
      else (findSub sub t).map (· + 1)

/-- Rust `str::contains` for a literal pattern. -/
def containsSub (sub s : List Char) : Bool :=
  (findSub sub s).isSome

/-- `PhpParser::parse_comment` from `src/parser/php.rs` (lines 104-120),
with the panic made explicit. The function finds the first `hook_` and the
first `()` anywhere in the comment; the slice `&text[start..end]` panics
when the first `()` lies before the first `hook_`, which the embedding
returns as `Except.error ()`. `Except.ok none` is a skipped comment and
`Except.ok (some name)` an emitted HookReference name. -/
def parseComment (text : List Char) : Except Unit (Option (List Char)) :=
  if containsSub "Implements hook_".data text then
    match findSub "hook_".data text, findSub "()".data text with
    | some startBytes, some endBytes =>
        if startBytes ≤ endBytes then
          .ok (some ((text.drop startBytes).take (endBytes - startBytes)))
        else .error ()
    | _, _ => .ok none
  else .ok none

/-- ASCII model of the regex class `\w`: letters, digits, underscore. -/
def isWordChar (c : Char) : Bool :=
  c.isAlphanum || c = '_'

/-- The character class `[@%:]` of the code-action placeholder regex. -/
def isPlaceholderMark (c : Char) : Bool :=
  c = '@' || c = '%' || c = ':'

/-- Left-to-right scanner equivalent to `captures_iter` of the regex
`[@%:]\w*` used in `handle_text_document_code_action`
(`src/server/handlers/code_action/mod.rs` line 39): a mark starts a match,
word characters extend it greedily (possibly zero of them), and scanning
resumes right after each match. The accumulator holds the current match
reversed. -/
def placeholderScan : Option (List Char) → List Char → List (List Char)
  | none, [] => []
  | none, c :: rest =>
      if isPlaceholderMark c then placeholderScan (some [c]) rest
      else placeholderScan none rest
  | some acc, [] => [acc.reverse]
  | some acc, c :: rest =>
      if isWordChar c then placeholderScan (some (c :: acc)) rest
      else
        acc.reverse ::
          (if isPlaceholderMark c then placeholderScan (some [c]) rest
           else placeholderScan none rest)

/-- All matches of `[@%:]\w*` in order of occurrence. -/
def placeholderMatches (s : List Char) : List (List Char) :=
  placeholderScan none s

/-- Scanner for the pattern the spec claims, `[@%:]\w+`: identical to
`placeholderScan` except a match needs at least one word character after
the mark (accumulator length at least 2), or it is abandoned. This is the
spec-side definition used only to compare against the code's `\w*`. -/
def placeholderScanClaim : Option (List Char) → List Char → List (List Char)
  | none, [] => []
  | none, c :: rest =>
      if isPlaceholderMark c then placeholderScanClaim (some [c]) rest
      else placeholderScanClaim none rest
  | some acc, [] => if 2 ≤ acc.length then [acc.reverse] else []
  | some acc, c :: rest =>
      if isWordChar c then placeholderScanClaim (some (c :: acc)) rest
      else if 2 ≤ acc.length then
        acc.reverse ::
          (if isPlaceholderMark c then placeholderScanClaim (some [c]) rest
           else placeholderScanClaim none rest)
      else
        (if isPlaceholderMark c then placeholderScanClaim (some [c]) rest
         else placeholderScanClaim none rest)

/-- All matches of the spec's claimed pattern `[@%:]\w+`, in order. -/
def placeholderMatchesClaim (s : List Char) : List (List Char) :=
  placeholderScanClaim none s

/-- The `", [{}]"` argument string built by
`handle_text_document_code_action` (`code_action/mod.rs` lines 40-47):
every placeholder match becomes `'match' => ''` and the list is joined
with `", "`. -/
def argumentsString (template : List Char) : List Char :=
  ", [".data ++
    List.intercalate ", ".data
      ((placeholderMatches template).map (fun p => "'".data ++ p ++ "' => ''".data)) ++
    "]".data

/-- The same argument string built from the spec's claimed pattern
`[@%:]\w+` instead of the code's `[@%:]\w*`; spec-side definition for the
comparison only. -/
def argumentsStringClaim (template : List Char) : List Char :=
  ", [".data ++
    List.intercalate ", ".data
      ((placeholderMatchesClaim template).map (fun p => "'".data ++ p ++ "' => ''".data)) ++
    "]".data

/-- A produced code action, keeping the fields the claim speaks about:
title, LSP kind string, the edit's (equal) start and end position, and the
inserted text. -/
structure CodeActionM where
  title : List Char
  kind : List Char
  editStart : PointM
  editEnd : PointM
  newText : List Char
  deriving DecidableEq, Repr

/-- The token-to-actions core of `handle_text_document_code_action`
(`code_action/mod.rs` lines 36-82): only a `DrupalTranslationString` token
yields an action, a single "Add translations placeholders" refactor-inline
action whose edit inserts `argumentsString` at one column before the
token range's end point (the code computes `end_point.column - 1`). -/
def handleCodeActionTokens (token : Option Token) : List CodeActionM :=
  match token with
  | some t =>
      match t.data with
      | .drupalTranslationString ts =>
          [{ title := "Add translations placeholders".data,
             kind := "refactor.inline".data,
             editStart := ⟨t.range.endPoint.row, t.range.endPoint.col - 1⟩,
             editEnd := ⟨t.range.endPoint.row, t.range.endPoint.col - 1⟩,
             newText := argumentsString ts.string }]
      | _ => []
  | none => []

/-- Left-to-right scanner equivalent to `captures_iter` of the regex
`\{([^{}]+)\}` in `DrupalRoute::get_route_parameters`
(`src/parser/tokens.rs` lines 115-126). Outside braces (`none` state) a
`{` opens a candidate; inside (`some acc`, reversed accumulator) a `}`
closes it, emitting the body when non-empty, and another `{` restarts the
candidate, exactly as the regex engine resumes after a failed match. -/
def routeParamScan : Option (List Char) → List Char → List (List Char)
  | none, [] => []
  | none, c :: rest =>
      if c = '{' then routeParamScan (some []) rest
      else routeParamScan none rest
  | some _, [] => []
  | some acc, c :: rest =>
      if c = '}' then
        if acc.isEmpty then routeParamScan none rest
        else acc.reverse :: routeParamScan none rest
      else if c = '{' then routeParamScan (some []) rest
      else routeParamScan (some (c :: acc)) rest

/-- `DrupalRoute::get_route_parameters`: the capture-group texts, in
order. -/
def getRouteParameters (path : List Char) : List (List Char) :=
  routeParamScan none path

/-- The `route_parameters_text` built in `handle_text_document_completion`
(`src/server/handlers/completion/mod.rs` lines 105-116): empty when the
path has no parameters, otherwise `", ['p' => $p, …]"` joined with
`", "`. -/
def routeParametersText (path : List Char) : List Char :=
  let ps := getRouteParameters path
  if ps.isEmpty then []
  else
    ", [".data ++
      List.intercalate ", ".data
        (ps.map (fun p => "'".data ++ p ++ "' => $".data ++ p)) ++
      "]".data

/-- The literal `fromRoute('` consumed by the completion regex
`(?<method>.*fromRoute\(')(?<name>[^']*)'(?<params>, \[.*\])?`. -/
def fromRouteLit : List Char :=
  "fromRoute('".data

/-- Whether the regex's greedy `.*` can stop at index `i`: the literal
`fromRoute('` occurs there and a closing quote exists somewhere after it
(otherwise `[^']*'` cannot match and the engine backtracks further). -/
def fromRouteIdxOk (line : List Char) (i : Nat) : Bool :=
  fromRouteLit.isPrefixOf (line.drop i) &&
    (line.drop (i + fromRouteLit.length)).contains '\''

/-- The start index the greedy `.*` settles on: the last workable
occurrence of `fromRoute('`. -/
def lastFromRouteIdx (line : List Char) : Option Nat :=
  ((List.range (line.length + 1)).filter (fromRouteIdxOk line)).getLast?

/-- Last index of a character in a list, for the greedy `.*` inside the
optional params group. -/
def lastIdxOf (c : Char) : List Char → Option Nat
  | [] => none
  | a :: t =>
      match lastIdxOf c t with
      | some j => some (j + 1)
      | none => if a = c then some 0 else none

/-- Length matched by the optional group `(?<params>, \[.*\])?` when
applied at the text right after the closing quote: the group needs the
literal `, [` and some later `]`, and its greedy `.*` runs to the last
`]`; when the group cannot match it contributes length 0 (capture
`None`). -/
def paramsGroupLen (afterQuote : List Char) : Nat :=
  if ", [".data.isPrefixOf afterQuote then
    match lastIdxOf ']' afterQuote with
    | some j => j + 1
    | none => 0
  else 0

/-- The `(method_len, name_len, params_len)` triple read off the captures
of the completion regex in `handle_text_document_completion`
(`completion/mod.rs` lines 52-70), `none` when the regex does not match
the line (all three lengths then stay 0 in the code). -/
def fromRouteMatch (line : List Char) : Option (Nat × Nat × Nat) :=
  match lastFromRouteIdx line with
  | none => none
  | some i =>
      let methodLen := i + fromRouteLit.length
      let nameLen := ((line.drop methodLen).takeWhile (fun c => c ≠ '\'')).length
      let paramsLen := paramsGroupLen (line.drop (methodLen + nameLen + 1))
      some (methodLen, nameLen, paramsLen)

/-- An LSP position as the completion handler uses it. -/
structure Pos where
  line : Nat
  character : Nat
  deriving DecidableEq, Repr

/-- A produced text edit: replaced range and new text. -/
structure TextEditM where
  startPos : Pos
  endPos : Pos
  newText : List Char
  deriving DecidableEq, Repr

/-- Rust `str::lines` on the character-list model: split on `'\n'`, no
entry for a trailing final newline, and a trailing `'\r'` of each line
stripped. -/
def rustLines (content : List Char) : List (List Char) :=
  let parts := content.splitOn '\n'
  let parts := if parts.getLast? = some [] then parts.dropLast else parts
  parts.map (fun l => if l.getLast? = some '\r' then l.dropLast else l)

/-- The cursor shift at the top of `handle_text_document_completion`
(`completion/mod.rs` lines 28-32): the character moves one left when
positive, the line never changes. -/
def completionShiftedPosition (p : Pos) : Pos :=
  if p.character > 0 then { p with character := p.character - 1 } else p

/-- The `current_line` computation of `handle_text_document_completion`
(lines 37-43): the document content's line at the request position's
original (unshifted) line index, defaulting to the empty string. -/
def completionCurrentLine (content : List Char) (p : Pos) : List Char :=
  (rustLines content).getD p.line []

/-- The `text_edit` of one route completion item
(`completion/mod.rs` lines 87-103): present only when the regex matched
(`method_len > 0`); it replaces from character `method_len` to the
request's original character on the request's line with the route name. -/
def routeCompletionTextEdit (p : Pos) (line routeName : List Char) :
    Option TextEditM :=
  match fromRouteMatch line with
  | some (methodLen, _, _) =>
      if methodLen > 0 then
        some ⟨⟨p.line, methodLen⟩, ⟨p.line, p.character⟩, routeName⟩
      else none
  | none => none

/-- The `additional_text_edits` entry of one route completion item
(`completion/mod.rs` lines 105-130): present only when the regex matched;
it covers characters `method_len + name_len + 1` up to
`method_len + name_len + 1 + params_len` on the request's line and writes
the route-parameter placeholder list. -/
def routeCompletionAdditionalEdit (p : Pos) (line path : List Char) :
    Option TextEditM :=
  match fromRouteMatch line with
  | some (methodLen, nameLen, paramsLen) =>
      if methodLen > 0 then
        some ⟨⟨p.line, methodLen + nameLen + 1⟩,
              ⟨p.line, methodLen + nameLen + 1 + paramsLen⟩,
              routeParametersText path⟩
      else none
  | none => none

/-- A sibling node as `get_class_name_from_node` sees it while walking
`prev_sibling` links: either a `namespace_definition` with its optional
`name` child field, or any other node kind. -/
inductive SiblingNode where
  | namespaceDefinition (nameField : Option (List Char))
  | otherNode
  deriving DecidableEq, Repr

/-- Whether a sibling is a `namespace_definition`. -/
def SiblingNode.isNamespaceDef : SiblingNode → Bool
  | .namespaceDefinition _ => true
  | .otherNode => false

/-- A `class_declaration` node through the fields the embedded functions
consult: the previous-sibling chain (nearest first) and the `name` child
field. -/
structure ClassDeclNode where
  prevSiblings : List SiblingNode
  nameField : Option (List Char)
  deriving DecidableEq, Repr

/-- `PhpParser::get_class_name_from_node` from `src/parser/php.rs`
(lines 363-383): walk the previous siblings for the first
`namespace_definition` (the chain running out returns `None` through the
`?` operator), read its `name` field and the class's `name` field, and
canonicalise `namespace\class`. -/
def getClassNameFromNode (node : ClassDeclNode) : Option PhpClassName := do
  let ns ← node.prevSiblings.find? SiblingNode.isNamespaceDef
  let nsName ← match ns with
    | .namespaceDefinition nf => nf
    | .otherNode => none
  let name ← node.nameField
  pure (PhpClassName.fromStr (nsName ++ ('\\' :: name)))

/-- `PhpParser::parse_class_declaration` from `src/parser/php.rs`
(lines 247-302) at the level the claim needs: the methods map is built
first without early returns (passed in here), the attribute computation
can itself return `None` early through `?` on the attributes path
(abstracted as `attrStep`, whose outer `Option` is that early return),
and then the token is built with `get_class_name_from_node(node)?` — a
missing qualified name suppresses the whole token. -/
def parseClassDeclaration (attrStep : ClassDeclNode → Option (Option ClassAttribute))
    (methods : List (List Char × MethodToken)) (node : ClassDeclNode)
    (range : RangeM) : Option Token := do
  let attr ← attrStep node
  let name ← getClassNameFromNode node
  pure ⟨range, .phpClassDefinition ⟨name, attr, methods⟩⟩

/-! Helper lemmas shared between the claim theorems. -/

/-- Two candidate suffixes of one string, neither a suffix of the other,
cannot both be suffixes of it. -/
theorem endsWithS_excl {s a b : List Char} (hab : ¬ (a <:+ b ∨ b <:+ a))
    (ha : endsWithS s a = true) : endsWithS s b = false := by
  by_contra hb
  have hb' := eq_true_of_ne_false hb
  have h1 := List.isSuffixOf_iff_suffix.mp ha
  have h2 := List.isSuffixOf_iff_suffix.mp hb'
  exact hab (List.suffix_or_suffix_of_suffix h1 h2)

/-- A list whose head (when present) fails the predicate is untouched by
`dropWhile`. -/
theorem dropWhile_eq_self_of_head {p : Char → Bool} {l : List Char}
    (h : l.head?.all (fun c => !p c) = true) : l.dropWhile p = l := by
  cases l with
  | nil => rfl
  | cons a t =>
    simp only [List.head?_cons, Option.all_some, Bool.not_eq_true'] at h
    simp [List.dropWhile_cons, h]

/-- The first character of a trimmed string does not match the trim set. -/
theorem head?_trimMatches (p : Char → Bool) (s : List Char) :
    (trimMatches p s).head?.all (fun c => !p c) = true := by
  unfold trimMatches
  have h1 : (s.dropWhile p).reverse.dropWhile p <:+ (s.dropWhile p).reverse :=
    List.dropWhile_suffix p
  have h2 := List.reverse_prefix.mpr h1
  rw [List.reverse_reverse] at h2
  cases htrim : ((s.dropWhile p).reverse.dropWhile p).reverse with
  | nil => simp
  | cons a as =>
    obtain ⟨t, ht⟩ := h2
    rw [htrim] at ht
    have hd : (s.dropWhile p).head? = some a := by rw [← ht]; rfl
    have hnot := List.head?_dropWhile_not p s
    rw [hd] at hnot
    have hnot' : p a = false := hnot
    simp [hnot']

/-- The last character of a trimmed string does not match the trim set. -/
theorem getLast?_trimMatches (p : Char → Bool) (s : List Char) :
    (trimMatches p s).getLast?.all (fun c => !p c) = true := by
  unfold trimMatches
  rw [List.getLast?_reverse]
  cases hh : ((s.dropWhile p).reverse.dropWhile p).head? with
  | none => simp
  | some c =>
    have hnot := List.head?_dropWhile_not p ((s.dropWhile p).reverse)
    rw [hh] at hnot
    simp [hh, hnot]

/-- Trimming is idempotent. -/
theorem trimMatches_idem (p : Char → Bool) (s : List Char) :
    trimMatches p (trimMatches p s) = trimMatches p s := by
  have h1 : (trimMatches p s).dropWhile p = trimMatches p s :=
    dropWhile_eq_self_of_head (head?_trimMatches p s)
  have h2 : (trimMatches p s).reverse.dropWhile p = (trimMatches p s).reverse := by
    apply dropWhile_eq_self_of_head
    rw [List.head?_reverse]
    exact getLast?_trimMatches p s
  show (((trimMatches p s).dropWhile p).reverse.dropWhile p).reverse = trimMatches p s
  rw [h1, h2, List.reverse_reverse]

/-- Trimming splits the input into matching margins around the result. -/
theorem trimMatches_decomp (p : Char → Bool) (s : List Char) :
    ∃ pre post, s = pre ++ trimMatches p s ++ post
      ∧ (∀ c ∈ pre, p c = true) ∧ (∀ c ∈ post, p c = true) := by
  refine ⟨s.takeWhile p, ((s.dropWhile p).reverse.takeWhile p).reverse, ?_, ?_, ?_⟩
  · have hsplit : s.dropWhile p =
        trimMatches p s ++ ((s.dropWhile p).reverse.takeWhile p).reverse := by
      calc s.dropWhile p = ((s.dropWhile p).reverse).reverse := by
            rw [List.reverse_reverse]
        _ = ((s.dropWhile p).reverse.takeWhile p ++
              (s.dropWhile p).reverse.dropWhile p).reverse := by
            rw [List.takeWhile_append_dropWhile]
        _ = ((s.dropWhile p).reverse.dropWhile p).reverse ++
              ((s.dropWhile p).reverse.takeWhile p).reverse := by
            rw [List.reverse_append]
        _ = trimMatches p s ++ ((s.dropWhile p).reverse.takeWhile p).reverse := rfl
    conv_lhs => rw [← List.takeWhile_append_dropWhile (p := p) (l := s), hsplit]
    rw [List.append_assoc]
  · exact fun c hc => List.mem_takeWhile_imp hc
  · intro c hc
    rw [List.mem_reverse] at hc
    exact List.mem_takeWhile_imp hc

/-- C7: the URI→kind mapping. A URI ending in `.yml` or `.yaml` is
Configuration (Yaml); one ending in `.php`, `.module`, `.theme` or
`.install` is Imperative (Php); one ending in none of the six is Unknown,
in particular `test.php.txt` and `test`; and a Document of Unknown kind
parses to an empty token list while its content stays stored. -/
theorem claim_C7 (uri : List Char) :
    ((endsWithS uri ".yml".data || endsWithS uri ".yaml".data) = true →
        uriToFileType uri = FileType.yaml)
  ∧ ((endsWithS uri ".php".data || endsWithS uri ".module".data
      || endsWithS uri ".theme".data || endsWithS uri ".install".data) = true →
        uriToFileType uri = FileType.php)
  ∧ (((endsWithS uri ".yml".data || endsWithS uri ".yaml".data)
      || (endsWithS uri ".php".data || endsWithS uri ".module".data
      || endsWithS uri ".theme".data || endsWithS uri ".install".data)) = false →
        uriToFileType uri = FileType.unknown)
  ∧ uriToFileType "test.php.txt".data = FileType.unknown
  ∧ uriToFileType "test".data = FileType.unknown
  ∧ (∀ (α : Type) (d : Document α) (pp : List Char → List α)
        (yp : List Char → List Char → List α), d.fileType = FileType.unknown →
        (d.parse pp yp).tokens = [] ∧ (d.parse pp yp).content = d.content) := by
  refine ⟨?_, ?_, ?_, by decide, by decide, ?_⟩
  · intro h
    simp [uriToFileType, h]
  · intro h
    have h0 := h
    simp only [Bool.or_eq_true] at h0
    have hy : endsWithS uri ".yml".data = false ∧ endsWithS uri ".yaml".data = false := by
      rcases h0 with ((h1 | h1) | h1) | h1 <;>
        exact ⟨endsWithS_excl (by decide) h1, endsWithS_excl (by decide) h1⟩
    simp [uriToFileType, hy.1, hy.2, h]
  · intro h
    simp only [Bool.or_eq_false_iff] at h
    obtain ⟨⟨h1, h2⟩, ⟨⟨⟨h3, h4⟩, h5⟩, h6⟩⟩ := h
    simp [uriToFileType, h1, h2, h3, h4, h5, h6]
  · intro α d pp yp h
    exact ⟨by simp [Document.parse, parseTokensFor, h], rfl⟩

/-- C8: `PhpClassName` canonicalisation strips exactly the leading and
trailing quote/backslash characters: the input splits as stripped margins
around the stored value, the stored value neither starts nor ends with a
quote or backslash, canonicalisation is idempotent, and the three spec
examples `N\C`, `\N\C` and `'\N\C\'` all canonicalise to `N\C`. -/
theorem claim_C8 (value : List Char) :
    (∃ pre post, value = pre ++ (PhpClassName.fromStr value).value ++ post
      ∧ (∀ c ∈ pre, isTrimQuoteChar c = true)
      ∧ (∀ c ∈ post, isTrimQuoteChar c = true))
  ∧ (PhpClassName.fromStr value).value.head?.all (fun c => !isTrimQuoteChar c) = true
  ∧ (PhpClassName.fromStr value).value.getLast?.all (fun c => !isTrimQuoteChar c) = true
  ∧ PhpClassName.fromStr (PhpClassName.fromStr value).value = PhpClassName.fromStr value
  ∧ PhpClassName.fromStr "N\\C".data = ⟨"N\\C".data⟩
  ∧ PhpClassName.fromStr "\\N\\C".data = ⟨"N\\C".data⟩
  ∧ PhpClassName.fromStr "'\\N\\C\\'".data = ⟨"N\\C".data⟩ := by
  refine ⟨trimMatches_decomp isTrimQuoteChar value,
    head?_trimMatches isTrimQuoteChar value,
    getLast?_trimMatches isTrimQuoteChar value,
    ?_, by decide, by decide, by decide⟩
  show PhpClassName.mk (trimMatches isTrimQuoteChar (trimMatches isTrimQuoteChar value)) =
    PhpClassName.mk (trimMatches isTrimQuoteChar value)
  rw [trimMatches_idem]

/-- Looking a key up after an in-place update applies the update to the
looked-up document. -/
theorem getDocument_updateDocument {α : Type} (s : Store α) (u : List Char)
    (f : Document α → Document α) :
    getDocument (updateDocument s u f) u = (getDocument s u).map f := by
  induction s with
  | nil => rfl
  | cons e t ih =>
    by_cases h : e.1 = u
    · simp [getDocument, updateDocument, List.find?_cons, h]
    · simp only [getDocument, updateDocument, List.map_cons, if_neg h] at ih ⊢
      rw [List.find?_cons, List.find?_cons]
      simp only [decide_eq_false h]
      exact ih

/-- C1: a single full-content change on a stored document atomically
replaces its content with the change text and its tokens with the parse of
that text under the document's file kind; kind and uri are untouched. The
functional store model returns only this final state, so no state pairs
the new content with the old tokens. -/
theorem claim_C1 {α : Type} (pp : List Char → List α)
    (yp : List Char → List Char → List α) (s : Store α)
    (u text : List Char) (d : Document α)
    (h : getDocument s u = some d) :
    getDocument (changeDocument pp yp s u [text]) u =
      some { fileType := d.fileType, content := text,
             tokens := parseTokensFor pp yp d.fileType text d.uri,
             uri := d.uri } := by
  unfold changeDocument
  rw [if_neg (by simp), h]
  rw [getDocument_updateDocument, h]
  rfl

/-- C1 witness: a concrete one-document store, changed to `new!`. -/
theorem claim_C1_witness :
    getDocument (changeDocument (fun c => [c.length]) (fun c u => [c.length + u.length])
        [("file://a.php".data,
          Document.new (α := Nat) "file://a.php".data "old".data)]
        "file://a.php".data ["new!".data]) "file://a.php".data =
      some { fileType := FileType.php, content := "new!".data,
             tokens := [4], uri := "file://a.php".data } := by
  have h := claim_C1 (fun c => [c.length]) (fun c u => [c.length + u.length])
    [("file://a.php".data, Document.new (α := Nat) "file://a.php".data "old".data)]
    "file://a.php".data "new!".data
    (Document.new (α := Nat) "file://a.php".data "old".data) (by decide)
  exact h.trans (by decide)

/-- C2: a change list with more than one change is refused and the store
is returned untouched, so every document keeps its content and tokens. -/
theorem claim_C2 {α : Type} (pp : List Char → List α)
    (yp : List Char → List Char → List α) (s : Store α)
    (u : List Char) (changes : List (List Char))
    (h : changes.length > 1) :
    changeDocument pp yp s u changes = s := by
  unfold changeDocument
  rw [if_pos h]

/-- C2 witness: two changes on a concrete store leave it unchanged. -/
theorem claim_C2_witness :
    changeDocument (fun c => [c.length]) (fun c u => [c.length + u.length])
        [("file://a.php".data,
          Document.new (α := Nat) "file://a.php".data "old".data)]
        "file://a.php".data ["x".data, "y".data] =
      [("file://a.php".data,
        Document.new (α := Nat) "file://a.php".data "old".data)] :=
  claim_C2 (fun c => [c.length]) (fun c u => [c.length + u.length])
    [("file://a.php".data, Document.new (α := Nat) "file://a.php".data "old".data)]
    "file://a.php".data ["x".data, "y".data] (by decide)

/-- C3: read-failure behaviour of the initial scan, evaluated at a
concrete input. The first conjunct shows a discovered file whose read
fails makes the whole scan panic (`none`) even though a readable file
follows — the scan does not complete and the readable file yields no
document, against the claim. The second conjunct shows what actually is
dropped silently: an entry whose path-to-URI conversion failed, with the
scan completing for the rest. -/
theorem claim_C3 :
    initializeDocuments (fun _ => ([] : List Nat)) (fun _ _ => [])
        [WalkEntry.pathOk "/w/a.php".data none,
         WalkEntry.pathOk "/w/b.php".data (some "x".data)] = none
  ∧ initializeDocuments (fun _ => ([] : List Nat)) (fun _ _ => [])
        [WalkEntry.pathErr,
         WalkEntry.pathOk "/w/b.php".data (some "x".data)] =
      some [(fileUri "/w/b.php".data,
             { fileType := FileType.php, content := "x".data, tokens := [],
               uri := fileUri "/w/b.php".data })] := by
  constructor
  · rfl
  · decide

/-- C4 counterexample: the extraction is not total. In the comment
`x() Implements hook_a()` the first `()` (index 1) lies before the first
`hook_` (index 15), so the slice `&text[start..end]` panics — the
extractor neither produces a token nor skips the comment, against the
claim. -/
theorem claim_C4_counterexample :
    parseComment "x() Implements hook_a()".data = Except.error () := by
  rfl

/-- C4 amended: for a comment containing `Implements hook_`, when the
comment holds no `()` it is skipped; when the first `hook_` (at `st`) and
the first `()` (at `en`) satisfy `st ≤ en`, exactly one HookReference is
emitted whose name is the comment text from `st` up to `en` (the first
`()` of the whole comment, not necessarily the first after `hook_`); and
when the first `()` lies strictly before the first `hook_` the extractor
panics instead of skipping. -/
theorem claim_C4 (text : List Char)
    (hc : containsSub "Implements hook_".data text = true) :
    (findSub "()".data text = none → parseComment text = .ok none)
  ∧ (∀ st en : Nat, findSub "hook_".data text = some st →
      findSub "()".data text = some en →
      (st ≤ en → parseComment text = .ok (some ((text.drop st).take (en - st))))
      ∧ (en < st → parseComment text = .error ())) := by
  constructor
  · intro hen
    unfold parseComment
    rw [if_pos hc, hen]
    cases findSub "hook_".data text <;> rfl
  · intro st en hst hen
    constructor
    · intro hle
      unfold parseComment
      rw [if_pos hc, hst, hen]
      show (if st ≤ en then Except.ok (some ((text.drop st).take (en - st)))
        else Except.error ()) = _
      rw [if_pos hle]
    · intro hlt
      unfold parseComment
      rw [if_pos hc, hst, hen]
      show (if st ≤ en then Except.ok (some ((text.drop st).take (en - st)))
        else Except.error ()) = _
      rw [if_neg (Nat.not_le.mpr hlt)]

/-- C4 witness: the spec's own example comment, at concrete indices. -/
theorem claim_C4_witness :
    parseComment "// Implements hook_user_login().".data =
      Except.ok (some "hook_user_login".data) := by
  have h := ((claim_C4 "// Implements hook_user_login().".data (by decide)).2
    14 29 (by decide) (by decide)).1 (by decide)
  exact h.trans (by rfl)

/-- C5 counterexample: the code-action placeholder pattern is `[@%:]\w*`,
not the claimed `[@%:]\w+`. On the template `50% off` the code emits the
action text `, ['%' => '']` (the bare `%` matches `\w*`), while the
claimed pattern yields no placeholder at all, so the inserted text is not
the one the claim derives. -/
theorem claim_C5_counterexample :
    handleCodeActionTokens (some ⟨⟨0, 40, ⟨0, 10⟩, ⟨0, 40⟩⟩,
        .drupalTranslationString ⟨"50% off".data, none⟩⟩) =
      [⟨"Add translations placeholders".data, "refactor.inline".data,
        ⟨0, 39⟩, ⟨0, 39⟩, ", ['%' => '']".data⟩]
  ∧ argumentsString "50% off".data ≠ argumentsStringClaim "50% off".data := by
  constructor
  · decide
  · decide

/-- C5 amended: a TranslationString token under the cursor yields exactly
one "Refactor Inline" code action; its edit inserts, at one column before
the token range's end, the text `, ['p1' => '', …, 'pn' => '']` where the
`pi` are exactly the matches of `[@%:]\w*` (zero or more word characters
after the mark) in the template, in order of occurrence; any other token
yields no action. The spec's example template still produces
`, ['@name' => '', '%count' => '']`. -/
theorem claim_C5 (range : RangeM) (ts : DrupalTranslationString) :
    handleCodeActionTokens (some ⟨range, .drupalTranslationString ts⟩) =
      [{ title := "Add translations placeholders".data,
         kind := "refactor.inline".data,
         editStart := ⟨range.endPoint.row, range.endPoint.col - 1⟩,
         editEnd := ⟨range.endPoint.row, range.endPoint.col - 1⟩,
         newText := ", [".data ++
           List.intercalate ", ".data
             ((placeholderMatches ts.string).map
               (fun p => "'".data ++ p ++ "' => ''".data)) ++ "]".data }]
  ∧ argumentsString "Hello @name, you have %count messages".data =
      ", ['@name' => '', '%count' => '']".data
  ∧ (∀ tok : Token, (∀ ts0, tok.data ≠ .drupalTranslationString ts0) →
      handleCodeActionTokens (some tok) = []) := by
  refine ⟨rfl, by decide, ?_⟩
  intro tok hne
  obtain ⟨r, data⟩ := tok
  cases data with
  | drupalTranslationString ts0 => exact absurd rfl (hne ts0)
  | _ => rfl

/-- C9: a `class_declaration` with no `namespace_definition` among its
preceding siblings produces no ClassDefinition token at all — the missing
qualified name aborts `parse_class_declaration` through the `?` operator,
whatever the attribute step and methods map gave. -/
theorem claim_C9 (attrStep : ClassDeclNode → Option (Option ClassAttribute))
    (methods : List (List Char × MethodToken)) (node : ClassDeclNode)
    (range : RangeM)
    (h : ∀ sib ∈ node.prevSiblings, sib.isNamespaceDef = false) :
    parseClassDeclaration attrStep methods node range = none := by
  have hf : node.prevSiblings.find? SiblingNode.isNamespaceDef = none :=
    List.find?_eq_none.mpr (fun x hx => by simp [h x hx])
  unfold parseClassDeclaration getClassNameFromNode
  cases hA : attrStep node with
  | none => rfl
  | some a => simp [hA, hf]

/-- C9 witness: a namespaceless class named `MyClass` with one unrelated
preceding sibling yields no token. -/
theorem claim_C9_witness :
    parseClassDeclaration (fun _ => some none) []
      ⟨[SiblingNode.otherNode], some "MyClass".data⟩
      ⟨0, 10, ⟨0, 0⟩, ⟨1, 0⟩⟩ = none :=
  claim_C9 (fun _ => some none) []
    ⟨[SiblingNode.otherNode], some "MyClass".data⟩
    ⟨0, 10, ⟨0, 0⟩, ⟨1, 0⟩⟩ (by decide)

/-- C10: the completion handler resolves the token at the shifted position
`(line, c-1)` when `c > 0` and at the unshifted position when `c = 0` (the
line index never changes); the current-line text is taken from the
request's original line; and a route completion's `text_edit` range ends
at the request's original (unshifted) character. -/
theorem claim_C10 (content : List Char) (p : Pos) :
    (p.character > 0 → completionShiftedPosition p = ⟨p.line, p.character - 1⟩)
  ∧ (p.character = 0 → completionShiftedPosition p = p)
  ∧ (completionShiftedPosition p).line = p.line
  ∧ completionCurrentLine content p =
      completionCurrentLine content (completionShiftedPosition p)
  ∧ (∀ (line routeName : List Char) (m n k : Nat),
      fromRouteMatch line = some (m, n, k) →
      routeCompletionTextEdit p line routeName =
        some ⟨⟨p.line, m⟩, ⟨p.line, p.character⟩, routeName⟩) := by
  refine ⟨?_, ?_, ?_, ?_, ?_⟩
  · intro h
    simp [completionShiftedPosition, h]
  · intro h
    simp [completionShiftedPosition, h]
  · unfold completionShiftedPosition
    split <;> rfl
  · unfold completionCurrentLine completionShiftedPosition
    split <;> rfl
  · intro line routeName m n k h
    have hm : 0 < m := by
      unfold fromRouteMatch at h
      cases hL : lastFromRouteIdx line with
      | none => rw [hL] at h; cases h
      | some i =>
        rw [hL] at h
        simp only [Option.some.injEq, Prod.mk.injEq] at h
        have : fromRouteLit.length = 11 := by decide
        omega
    unfold routeCompletionTextEdit
    rw [h]
    show (if m > 0 then some (⟨⟨p.line, m⟩, ⟨p.line, p.character⟩, routeName⟩ : TextEditM)
      else none) = _
    rw [if_pos hm]

/-- Scanning in the outside-braces state skips over brace-free text. -/
theorem routeParamScan_none_append (p0 l : List Char)
    (h : ∀ c ∈ p0, c ≠ '{' ∧ c ≠ '}') :
    routeParamScan none (p0 ++ l) = routeParamScan none l := by
  induction p0 with
  | nil => rfl
  | cons c t ih =>
    have hc := h c (List.mem_cons_self c t)
    rw [List.cons_append]
    show (if c = '{' then routeParamScan (some []) (t ++ l)
      else routeParamScan none (t ++ l)) = _
    rw [if_neg hc.1]
    exact ih (fun d hd => h d (List.mem_cons_of_mem c hd))

/-- Scanning a brace-free candidate body up to its closing brace emits the
accumulated text (when non-empty) and resumes outside. -/
theorem routeParamScan_inside (s : List Char)
    (hs : ∀ c ∈ s, c ≠ '{' ∧ c ≠ '}') (acc rest : List Char)
    (hne : acc.reverse ++ s ≠ []) :
    routeParamScan (some acc) (s ++ '}' :: rest) =
      (acc.reverse ++ s) :: routeParamScan none rest := by
  induction s generalizing acc with
  | nil =>
    have hacc : acc ≠ [] := by
      intro h; apply hne; simp [h]
    rw [List.nil_append]
    show (if ('}' : Char) = '}' then
        (if acc.isEmpty then routeParamScan none rest
         else acc.reverse :: routeParamScan none rest)
      else if ('}' : Char) = '{' then routeParamScan (some []) rest
      else routeParamScan (some ('}' :: acc)) rest) = _
    rw [if_pos rfl, if_neg (by simpa [List.isEmpty_iff] using hacc)]
    simp
  | cons c s' ih =>
    have hc := hs c (List.mem_cons_self c s')
    rw [List.cons_append]
    show (if c = '}' then
        (if acc.isEmpty then routeParamScan none (s' ++ '}' :: rest)
         else acc.reverse :: routeParamScan none (s' ++ '}' :: rest))
      else if c = '{' then routeParamScan (some []) (s' ++ '}' :: rest)
      else routeParamScan (some (c :: acc)) (s' ++ '}' :: rest)) = _
    rw [if_neg hc.2, if_neg hc.1]
    have := ih (fun d hd => hs d (List.mem_cons_of_mem c hd)) (c :: acc)
      (by simp)
    rw [this]
    simp

/-- The route-parameter extraction on a path assembled from brace-free
text around non-empty brace-free placeholder segments returns exactly the
placeholder segments, in order. -/
theorem getRouteParameters_structured (p0 : List Char)
    (segs : List (List Char × List Char))
    (hp0 : ∀ c ∈ p0, c ≠ '{' ∧ c ≠ '}')
    (hsegs : ∀ sp ∈ segs, sp.1 ≠ [] ∧ (∀ c ∈ sp.1, c ≠ '{' ∧ c ≠ '}')
        ∧ (∀ c ∈ sp.2, c ≠ '{' ∧ c ≠ '}')) :
    getRouteParameters
        (p0 ++ (segs.map (fun sp => '{' :: (sp.1 ++ '}' :: sp.2))).flatten) =
      segs.map Prod.fst := by
  induction segs generalizing p0 with
  | nil =>
    unfold getRouteParameters
    rw [List.map_nil, List.flatten_nil, List.append_nil]
    rw [show (routeParamScan none p0 = routeParamScan none (p0 ++ [])) from
      by rw [List.append_nil], routeParamScan_none_append p0 [] hp0]
    rfl
  | cons sp rest ih =>
    have hsp := hsegs sp (List.mem_cons_self sp rest)
    unfold getRouteParameters
    rw [List.map_cons, List.flatten_cons,
      routeParamScan_none_append p0 _ hp0]
    rw [List.cons_append, List.append_assoc, List.cons_append]
    show routeParamScan (some []) (sp.1 ++ '}' :: (sp.2 ++ _)) = _
    rw [routeParamScan_inside sp.1 hsp.2.1 [] _ (by simpa using hsp.1)]
    rw [List.reverse_nil, List.nil_append]
    have := ih sp.2 (fun d hd => hsp.2.2 d hd)
      (fun q hq => hsegs q (List.mem_cons_of_mem sp hq))
    unfold getRouteParameters at this
    rw [this, List.map_cons]

/-- A successful match of the completion's fromRoute regex has a positive
method length. -/
theorem fromRouteMatch_pos {line : List Char} {m n k : Nat}
    (h : fromRouteMatch line = some (m, n, k)) : 0 < m := by
  unfold fromRouteMatch at h
  cases hL : lastFromRouteIdx line with
  | none => rw [hL] at h; cases h
  | some i =>
    rw [hL] at h
    simp only [Option.some.injEq, Prod.mk.injEq] at h
    have : fromRouteLit.length = 11 := by decide
    omega

/-- Dropping the measured take-while length is the drop-while. -/
theorem drop_length_takeWhile (p : Char → Bool) (l : List Char) :
    l.drop (l.takeWhile p).length = l.dropWhile p := by
  induction l with
  | nil => rfl
  | cons a t ih =>
    by_cases hp : p a
    · simp [List.takeWhile_cons, List.dropWhile_cons, hp, ih]
    · simp [List.takeWhile_cons, List.dropWhile_cons, hp]

/-- When the list holds an element failing the predicate, the drop-while
result starts with some element failing the predicate. -/
theorem dropWhile_head?_mem {p : Char → Bool} {l : List Char} {q : Char}
    (hq : q ∈ l) (hpq : p q = false) :
    ∃ a, (l.dropWhile p).head? = some a ∧ p a = false := by
  cases hd : l.dropWhile p with
  | nil =>
    exfalso
    have hsplit : l.takeWhile p ++ l.dropWhile p = l :=
      List.takeWhile_append_dropWhile p l
    rw [hd, List.append_nil] at hsplit
    rw [← hsplit] at hq
    have := List.mem_takeWhile_imp hq
    rw [hpq] at this
    cases this
  | cons a t =>
    refine ⟨a, rfl, ?_⟩
    have hnot := List.head?_dropWhile_not p l
    rw [hd] at hnot
    exact hnot

/-- A successful match of the completion's fromRoute regex puts the
closing quote at character `method_len + name_len` of the line: the
character right before the additional edit's insertion point. -/
theorem fromRouteMatch_quote (line : List Char) (m n k : Nat)
    (h : fromRouteMatch line = some (m, n, k)) :
    (line.drop (m + n)).head? = some '\'' := by
  unfold fromRouteMatch at h
  cases hL : lastFromRouteIdx line with
  | none => rw [hL] at h; cases h
  | some i =>
    rw [hL] at h
    simp only [Option.some.injEq, Prod.mk.injEq] at h
    obtain ⟨hm, hn, -⟩ := h
    have hok : fromRouteIdxOk line i = true := by
      unfold lastFromRouteIdx at hL
      exact (List.mem_filter.mp (List.mem_of_getLast?_eq_some hL)).2
    unfold fromRouteIdxOk at hok
    rw [Bool.and_eq_true] at hok
    have hqmem : '\'' ∈ line.drop (i + fromRouteLit.length) := by
      obtain ⟨a, ha, hbeq⟩ :=
        List.contains_iff_exists_mem_beq.mp hok.2
      rw [eq_of_beq hbeq]
      exact ha
    obtain ⟨a, hhead, hpa⟩ :=
      dropWhile_head?_mem (p := fun c => decide (c ≠ '\'')) hqmem (by simp)
    have ha : a = '\'' := not_ne_iff.mp (of_decide_eq_false hpa)
    subst hm hn ha
    rw [← List.drop_drop, drop_length_takeWhile]
    exact hhead

/-- C10 witness: at position (0, 12) on the line `fromRoute('')`. -/
theorem claim_C10_witness :
    (completionShiftedPosition ⟨0, 12⟩ = ⟨0, 11⟩)
  ∧ routeCompletionTextEdit ⟨0, 12⟩ "fromRoute('')".data "r1".data =
      some ⟨⟨0, 11⟩, ⟨0, 12⟩, "r1".data⟩ := by
  have h := claim_C10 "fromRoute('')".data ⟨0, 12⟩
  exact ⟨(h.1 (by decide)).trans (by decide),
    (h.2.2.2.2 "fromRoute('')".data "r1".data 11 0 0 (by decide)).trans (by decide)⟩

/-- C6: when the current line matches the fromRoute regex with capture
lengths `(m, n, k)` and the route's path is brace-free text around the
non-empty brace-free placeholder segments `s1 … sn`, the route's
completion item carries an additional edit that writes
`, ['s1' => $s1, …, 'sn' => $sn]` (nothing when there are no
placeholders, the segments in path order) over the range starting at
character `m + n + 1` — one past the closing quote, which the second
conjunct shows sits at character `m + n` — and extending over the `k`
characters of any previously captured parameter list. -/
theorem claim_C6 (p : Pos) (line : List Char) (m n k : Nat)
    (p0 : List Char) (segs : List (List Char × List Char))
    (hm : fromRouteMatch line = some (m, n, k))
    (hp0 : ∀ c ∈ p0, c ≠ '{' ∧ c ≠ '}')
    (hsegs : ∀ sp ∈ segs, sp.1 ≠ [] ∧ (∀ c ∈ sp.1, c ≠ '{' ∧ c ≠ '}')
        ∧ (∀ c ∈ sp.2, c ≠ '{' ∧ c ≠ '}')) :
    routeCompletionAdditionalEdit p line
        (p0 ++ (segs.map (fun sp => '{' :: (sp.1 ++ '}' :: sp.2))).flatten) =
      some ⟨⟨p.line, m + n + 1⟩, ⟨p.line, m + n + 1 + k⟩,
            if segs.isEmpty then []
            else ", [".data ++
              List.intercalate ", ".data
                (segs.map (fun sp => "'".data ++ sp.1 ++ "' => $".data ++ sp.1)) ++
              "]".data⟩
  ∧ (line.drop (m + n)).head? = some '\'' := by
  constructor
  · have hrpt : routeParametersText
        (p0 ++ (segs.map (fun sp => '{' :: (sp.1 ++ '}' :: sp.2))).flatten) =
        (if segs.isEmpty then []
         else ", [".data ++
           List.intercalate ", ".data
             (segs.map (fun sp => "'".data ++ sp.1 ++ "' => $".data ++ sp.1)) ++
           "]".data) := by
      unfold routeParametersText
      rw [getRouteParameters_structured p0 segs hp0 hsegs]
      cases segs with
      | nil => rfl
      | cons a l =>
        simp only [List.map_cons, List.map_map, List.isEmpty_cons]
        rfl
    unfold routeCompletionAdditionalEdit
    rw [hm]
    show (if m > 0 then
        some (⟨⟨p.line, m + n + 1⟩, ⟨p.line, m + n + 1 + k⟩,
          routeParametersText
            (p0 ++ (segs.map (fun sp => '{' :: (sp.1 ++ '}' :: sp.2))).flatten)⟩
          : TextEditM)
      else none) = _
    rw [if_pos (fromRouteMatch_pos hm), hrpt]
  · exact fromRouteMatch_quote line m n k hm

/-- C6 witness: the spec's S2 scenario — line `fromRoute('')`, route path
`/x/{a}/{b}` — inserts `, ['a' => $a, 'b' => $b]` at character 12, right
after the closing quote. -/
theorem claim_C6_witness :
    routeCompletionAdditionalEdit ⟨0, 12⟩ "fromRoute('')".data "/x/{a}/{b}".data =
      some ⟨⟨0, 12⟩, ⟨0, 12⟩, ", ['a' => $a, 'b' => $b]".data⟩
  ∧ ("fromRoute('')".data.drop 11).head? = some '\'' := by
  have h := claim_C6 ⟨0, 12⟩ "fromRoute('')".data 11 0 0 "/x/".data
    [("a".data, "/".data), ("b".data, [])] (by decide) (by decide) (by decide)
  refine ⟨?_, h.2⟩
  have e : ("/x/".data ++
      (([("a".data, "/".data), ("b".data, ([] : List Char))].map
        (fun sp => '{' :: (sp.1 ++ '}' :: sp.2))).flatten)) = "/x/{a}/{b}".data := by
    decide
  rw [← e]
  exact h.1.trans (by decide)

end DrupalLs
